import Mathlib

/-!
Shallow embedding of the s1vm WebAssembly virtual machine (Rust sources under
src/) and proofs about its specification claims.

Machine integers are embedded as follows: a 64-bit stack cell (Rust
`StackValue(u64)`) is a `Nat`, and every operation that the source performs on
a reinterpreted width applies the corresponding `% 2^64` / `% 2^32`
normalisation explicitly.  Signed views (`as i64`, `as i32`) are `Int` values
obtained by the usual twos-complement decoding.  Floats never participate in
any claim; `f32`/`f64` payloads are carried as their raw bit patterns.
-/

deriving instance DecidableEq for Except

namespace S1

/-- Execution-time traps, from src/error.rs (enum `TrapKind`).  Note the
source has no `StackUnderflow` variant. -/
inductive TrapKind where
  | InvalidFunctionAddr
  | Unreachable
  | MemoryAccessOutOfBounds
  | TableAccessOutOfBounds
  | ElemUninitialized
  | DivisionByZero
  | InvalidConversionToInt
  | StackOverflow
  | UnexpectedSignature
deriving DecidableEq, Repr

/-- Errors of the embedded execution: a trap (Rust `TrapKind`, wrapped into
`Error::RuntimeError` at the host boundary), a Rust panic (a `todo!()`,
`unreachable!()` or slice-index failure in the source), or fuel exhaustion,
which is an artifact of the fuel-based embedding and not a source behaviour. -/
inductive VmErr where
  | trap (k : TrapKind)
  | panicked
  | outOfFuel
deriving DecidableEq, Repr

/-- Decode a 64-bit cell as Rust `i64` (twos complement). -/
def toI64 (n : Nat) : Int :=
  if n % 2 ^ 64 < 2 ^ 63 then ((n % 2 ^ 64 : Nat) : Int)
  else ((n % 2 ^ 64 : Nat) : Int) - 2 ^ 64

/-- Decode the low 32 bits of a cell as Rust `i32` (twos complement),
mirroring `cell as i32`. -/
def toI32 (n : Nat) : Int :=
  if n % 2 ^ 32 < 2 ^ 31 then ((n % 2 ^ 32 : Nat) : Int)
  else ((n % 2 ^ 32 : Nat) : Int) - 2 ^ 32

/-- Encode an integer into a 64-bit cell, mirroring Rust `as u64` on a signed
value (twos complement, also the effect of sign-extending casts). -/
def intToCell (i : Int) : Nat := (i % (2 ^ 64 : Int)).toNat

/-- Encode an integer into a 32-bit pattern, mirroring Rust `as u32`. -/
def intToBits32 (i : Int) : Nat := (i % (2 ^ 32 : Int)).toNat

/-- External tagged value type, from src/value.rs (enum `ValueType`). -/
inductive ValueType where
  | I32
  | I64
  | F32
  | F64
deriving DecidableEq, Repr

/-- External tagged value, from src/value.rs (enum `Value`).  The `I32`
payload is an `i32` value, `I64` an `i64` value; float payloads are carried
as raw bit patterns. -/
inductive Value where
  | I32 (v : Int)
  | I64 (v : Int)
  | F32 (bits : Nat)
  | F64 (bits : Nat)
deriving DecidableEq, Repr

/-- `impl From<Value> for StackValue` (src/stack.rs): `I32(v) => v as u64`
(sign-extending), `I64(v) => v as u64`, floats by `to_bits`. -/
def Value.toCell : Value → Nat
  | .I32 v => intToCell v
  | .I64 v => intToCell v
  | .F32 b => b % 2 ^ 32
  | .F64 b => b % 2  ^ 64

/-- Function type, from src/value.rs (struct `FunctionType`): parameter types
and an optional single return type. -/
structure FunctionType where
  params : List ValueType
  retType : Option ValueType
deriving DecidableEq, Repr

def FunctionType.paramCount (t : FunctionType) : Nat := t.params.length

/-- The operand/locals stack, from src/stack.rs (struct `Stack`): a vector of
64-bit cells, the current frame base pointer `bp`, and the size limit. -/
structure Stack where
  stack : Array Nat
  bp : Nat
  limit : Nat
deriving DecidableEq, Repr

/-- `Vec::resize(new_len, 0)`: truncate or extend with zero cells. -/
def resizeArr (a : Array Nat) (n : Nat) : Array Nat :=
  if n ≤ a.size then a.extract 0 n else a ++ Array.mkArray (n - a.size) 0

def Stack.len (s : Stack) : Nat := s.stack.size

/-- `Stack::frame_size`: `len - bp` via `checked_sub`, trapping
`StackOverflow` when `bp > len`. -/
def Stack.frameSize (s : Stack) : Except TrapKind Nat :=
  if s.bp ≤ s.len then .ok (s.len - s.bp) else .error .StackOverflow

/-- `Stack::check_overflow`: fails with `StackOverflow` when `len + need`
would exceed `limit`; otherwise returns the current length. -/
def Stack.checkOverflow (s : Stack) (need : Nat) : Except TrapKind Nat :=
  if s.len + need ≤ s.limit then .ok s.len else .error .StackOverflow

/-- `Stack::push_frame`: require the current frame to hold at least `params`
values, set `bp := len - params`, return the old `bp`. -/
def Stack.pushFrame (s : Stack) (params : Nat) : Except TrapKind (Nat × Stack) := do
  let cur ← s.frameSize
  if cur < params then .error .StackOverflow
  else .ok (s.bp, { s with bp := s.len - params })

/-- `Stack::reserve_locals`: append `locals` zero cells (no limit check in the
source; the `usize` overflow check cannot fire on `Nat`). -/
def Stack.reserveLocals (s : Stack) (locals : Nat) : Stack :=
  { s with stack := s.stack ++ Array.mkArray locals 0 }

/-- `Stack::pop_frame`: truncate the vector to the current `bp` and restore
the saved base pointer. -/
def Stack.popFrame (s : Stack) (oldBp : Nat) : Stack :=
  { s with stack := resizeArr s.stack s.bp, bp := oldBp }

/-- `Stack::push_params`: one overflow check up front, then append the
reinterpreted cells (the source pushes them in a loop).  Returns the original
length. -/
def Stack.pushParams (s : Stack) (params : List Value) : Except TrapKind (Nat × Stack) := do
  let len ← s.checkOverflow params.length
  .ok (len, { s with stack := s.stack ++ (params.map Value.toCell).toArray })

/-- `Stack::check_local` followed by the slot lookup of `set_local_val`: the
slot index is `bp + local`, with no upper bound other than the vector length
(`stack.get_mut(idx)`). -/
def Stack.setLocalVal (s : Stack) (localIdx : Nat) (val : Nat) : Except TrapKind Stack :=
  if s.bp + localIdx < s.stack.size then
    .ok { s with stack := s.stack.setD (s.bp + localIdx) val }
  else .error .StackOverflow

/-- `Stack::get_local_val`: read slot `bp + local`, trapping `StackOverflow`
when it is out of range. -/
def Stack.getLocalVal (s : Stack) (localIdx : Nat) : Except TrapKind Nat :=
  match s.stack[s.bp + localIdx]? with
  | some v => .ok v
  | none => .error .StackOverflow

/-- `Stack::push_val`: fail with `StackOverflow` when `len ≥ limit`, else
append the cell. -/
def Stack.pushVal (s : Stack) (val : Nat) : Except TrapKind Stack :=
  if s.len ≥ s.limit then .error .StackOverflow
  else .ok { s with stack := s.stack.push val }

/-- `Stack::pop_val`: `Vec::pop`, failing with `StackOverflow` only when the
whole vector is empty.  There is no check against `bp`. -/
def Stack.popVal (s : Stack) : Except TrapKind (Nat × Stack) :=
  match s.stack.back? with
  | some v => .ok (v, { s with stack := s.stack.pop })
  | none => .error .StackOverflow

/-- `Stack::top_val`: read the last cell without removing it. -/
def Stack.topVal (s : Stack) : Except TrapKind Nat :=
  match s.stack.back? with
  | some v => .ok v
  | none => .error .StackOverflow

/-- `FromStack::pop_pair` (src/stack.rs): pop `right` first, then `left`. -/
def Stack.popPair (s : Stack) : Except TrapKind ((Nat × Nat) × Stack) := do
  let (right, s) ← s.popVal
  let (left, s) ← s.popVal
  .ok ((left, right), s)

/-! Integer operator kernels of the threaded back-end, src/function.rs.
The Rust macros `impl_int_binops!`, `impl_int_binops_div!` and
`impl_int_relops!` are higher-order code generators; they are embedded as
parametrized definitions, and each kernel is the corresponding
instantiation.  All kernels act on raw 64-bit cells; the width and sign
reinterpretations of the macro arguments appear inside the cell-level
functions passed in. -/

/-- `impl_int_binops!` (all non-div arms): pop the pair, combine, push. -/
def intBinop (op : Nat → Nat → Nat) (s : Stack) : Except TrapKind Stack := do
  let ((left, right), s) ← s.popPair
  s.pushVal (op left right)

/-- `impl_int_binops_div!`: pop the pair, run the checked operation; on `None`
trap `DivisionByZero` when the right operand reads as zero at the kernel
width, else `InvalidConversionToInt`. -/
def intBinopDiv (chk : Nat → Nat → Option Nat) (rzero : Nat → Bool) (s : Stack) :
    Except TrapKind Stack := do
  let ((left, right), s) ← s.popPair
  match chk left right with
  | none => .error (if rzero right then .DivisionByZero else .InvalidConversionToInt)
  | some res => s.pushVal res

/-- `impl_int_relops!` (binary form): pop right then left, push the boolean
as a 64-bit cell. -/
def intRelop (rel : Nat → Nat → Bool) (s : Stack) : Except TrapKind Stack := do
  let (right, s) ← s.popVal
  let (left, s) ← s.popVal
  s.pushVal (if rel left right then 1 else 0)

/-- `impl_int_relops!` (unary form, used by `eqz`). -/
def intRelop1 (rel : Nat → Bool) (s : Stack) : Except TrapKind Stack := do
  let (v, s) ← s.popVal
  s.pushVal (if rel v then 1 else 0)

/-- Rust `i64::checked_div`: `None` when the divisor is zero or on
`i64::MIN / -1`; otherwise division truncating toward zero, re-encoded
`as i64` then `as u64` / `as i64` (same cell either way). -/
def checkedDiv64 (l r : Nat) : Option Nat :=
  if toI64 r = 0 ∨ (toI64 l = -2 ^ 63 ∧ toI64 r = -1) then none
  else some (intToCell ((toI64 l).tdiv (toI64 r)))

/-- Rust `i64::checked_rem`: `None` in exactly the same cases as
`checked_div`; otherwise the remainder with the sign of the dividend. -/
def checkedRem64 (l r : Nat) : Option Nat :=
  if toI64 r = 0 ∨ (toI64 l = -2 ^ 63 ∧ toI64 r = -1) then none
  else some (intToCell ((toI64 l).tmod (toI64 r)))

/-- Rust `i32::checked_div` on the low 32 bits, result `as i64` sign-extended
into the cell (the div macro pushes `res as i64`). -/
def checkedDiv32 (l r : Nat) : Option Nat :=
  if toI32 r = 0 ∨ (toI32 l = -2 ^ 31 ∧ toI32 r = -1) then none
  else some (intToCell ((toI32 l).tdiv (toI32 r)))

/-- Rust `i32::checked_rem` on the low 32 bits, result sign-extended. -/
def checkedRem32 (l r : Nat) : Option Nat :=
  if toI32 r = 0 ∨ (toI32 l = -2 ^ 31 ∧ toI32 r = -1) then none
  else some (intToCell ((toI32 l).tmod (toI32 r)))

/-- `i64_ops::add`: `wrapping_add` on `i64`, pushed back as a cell. -/
def i64_add : Stack → Except TrapKind Stack :=
  intBinop (fun l r => intToCell (toI64 l + toI64 r))

/-- `i64_ops::sub`: `wrapping_sub` on `i64`. -/
def i64_sub : Stack → Except TrapKind Stack :=
  intBinop (fun l r => intToCell (toI64 l - toI64 r))

/-- `i64_ops::mul`: `wrapping_mul` on `i64`. -/
def i64_mul : Stack → Except TrapKind Stack :=
  intBinop (fun l r => intToCell (toI64 l * toI64 r))

/-- `i64_ops::shl`: `left.wrapping_shl((right & 0x1F) as u32)` — the macro
masks the shift count with `0x1F` (that is, `count mod 32`) even at 64-bit
width; the result cell is the 64-bit pattern shifted left by that amount. -/
def i64_shl : Stack → Except TrapKind Stack :=
  intBinop (fun l r => (l % 2 ^ 64) * 2 ^ (r % 32) % 2 ^ 64)

/-- `i64_ops::shr_s`: arithmetic shift right of the `i64` view by
`right & 0x1F` (`count mod 32`), floor division by the power of two. -/
def i64_shr_s : Stack → Except TrapKind Stack :=
  intBinop (fun l r => intToCell ((toI64 l).fdiv (2 ^ (r % 32))))

/-- `i64_ops::shr_u`: the macro instantiates the signed type here as well
(`$type = i64`, `wrapping_shr`), so this is the same arithmetic shift as
`shr_s`, re-encoded `as u64`. -/
def i64_shr_u : Stack → Except TrapKind Stack :=
  intBinop (fun l r => intToCell ((toI64 l).fdiv (2 ^ (r % 32))))

/-- `i64_ops::div_s` (`impl_int_binops_div!(store, i64, checked_div, i64)`). -/
def i64_div_s : Stack → Except TrapKind Stack :=
  intBinopDiv checkedDiv64 (fun r => toI64 r == 0)

/-- `i64_ops::div_u`: the macro call passes the signed type
(`impl_int_binops_div!(store, i64, checked_div, u64)` with `$type = i64`), so
the kernel performs signed `checked_div` and only re-encodes `as u64`. -/
def i64_div_u : Stack → Except TrapKind Stack :=
  intBinopDiv checkedDiv64 (fun r => toI64 r == 0)

/-- `i64_ops::rem_s`. -/
def i64_rem_s : Stack → Except TrapKind Stack :=
  intBinopDiv checkedRem64 (fun r => toI64 r == 0)

/-- `i64_ops::rem_u`: signed `checked_rem`, like `div_u`. -/
def i64_rem_u : Stack → Except TrapKind Stack :=
  intBinopDiv checkedRem64 (fun r => toI64 r == 0)

/-- `i64_ops::eqz`: 1 when the `i64` view is zero, else 0. -/
def i64_eqz : Stack → Except TrapKind Stack :=
  intRelop1 (fun v => toI64 v == 0)

/-- `i64_ops::lt_s`. -/
def i64_lt_s : Stack → Except TrapKind Stack :=
  intRelop (fun l r => toI64 l < toI64 r)

/-- `i32_ops::add`: `wrapping_add` on `i32`; the plain binop macro pushes the
`i32` result with `FromStack<i32>::push`, which sign-extends it into the
64-bit cell. -/
def i32_add : Stack → Except TrapKind Stack :=
  intBinop (fun l r => intToCell (toI32 (intToBits32 (toI32 l + toI32 r))))

/-- `i32_ops::sub`: `wrapping_sub` on `i32`, sign-extended like `add`. -/
def i32_sub : Stack → Except TrapKind Stack :=
  intBinop (fun l r => intToCell (toI32 (intToBits32 (toI32 l - toI32 r))))

/-- `i32_ops::shl`: `left.wrapping_shl((right & 0x1F) as u32)` on `i32`,
pushed `as u32` (zero-extended cell). -/
def i32_shl : Stack → Except TrapKind Stack :=
  intBinop (fun l r => (l % 2 ^ 32) * 2 ^ (r % 32) % 2 ^ 32)

/-- `i32_ops::shr_s`: arithmetic shift right of the `i32` view by
`right & 0x1F`, pushed `as u32`. -/
def i32_shr_s : Stack → Except TrapKind Stack :=
  intBinop (fun l r => intToBits32 ((toI32 l).fdiv (2 ^ (r % 32))))

/-- `i32_ops::shr_u`: same signed shift as `shr_s` (the macro uses `$type =
i32` here too), pushed `as u32`. -/
def i32_shr_u : Stack → Except TrapKind Stack :=
  intBinop (fun l r => intToBits32 ((toI32 l).fdiv (2 ^ (r % 32))))

/-- `i32_ops::div_s`. -/
def i32_div_s : Stack → Except TrapKind Stack :=
  intBinopDiv checkedDiv32 (fun r => toI32 r == 0)

/-- `i32_ops::div_u`: signed `checked_div` on the `i32` views (the macro call
passes `$type = i32`), result `as u64`. -/
def i32_div_u : Stack → Except TrapKind Stack :=
  intBinopDiv checkedDiv32 (fun r => toI32 r == 0)

/-- `i32_ops::rem_s`. -/
def i32_rem_s : Stack → Except TrapKind Stack :=
  intBinopDiv checkedRem32 (fun r => toI32 r == 0)

/-- `i32_ops::rem_u`: signed `checked_rem`, like `div_u`. -/
def i32_rem_u : Stack → Except TrapKind Stack :=
  intBinopDiv checkedRem32 (fun r => toI32 r == 0)

/-- `i32_ops::eqz`. -/
def i32_eqz : Stack → Except TrapKind Stack :=
  intRelop1 (fun v => toI32 v == 0)

/-! The threaded-ISA back-end: instructions (src/isa.rs, enum `Instruction`),
the function representation (src/function.rs), and the execution loop
(`run_function`).  Only the instruction arms that the source actually
implements are given constructors; every arm of `run_function` that is a
`todo!()` (memory access, globals, drop, select, conversions, ...) is folded
into the single constructor `Todo`, which aborts exactly as the Rust panic
does. -/

inductive Instr where
  | Br (pc : Nat)
  | BrIfEqz (pc : Nat)
  | BrIfNez (pc : Nat)
  | Unreachable
  | Return
  | Call (idx : Nat)
  | GetLocal (i : Nat)
  | SetLocal (i : Nat)
  | TeeLocal (i : Nat)
  | I32Const (v : Int)
  | I64Const (v : Int)
  | I32Eqz
  | I32Add
  | I32Sub
  | I32DivS
  | I32DivU
  | I32RemS
  | I32RemU
  | I32Shl
  | I32ShrS
  | I32ShrU
  | I64Eqz
  | I64LtS
  | I64Add
  | I64Sub
  | I64Mul
  | I64DivS
  | I64DivU
  | I64RemS
  | I64RemU
  | I64Shl
  | I64ShrS
  | I64ShrU
  | Todo
deriving DecidableEq, Repr

/-- src/function.rs, struct `InternalFunction`. -/
structure InternalFunction where
  localTypes : List ValueType
  code : List Instr
deriving DecidableEq, Repr

/-- src/function.rs, enum `FunctionBody`. -/
inductive FunctionBody where
  | internal (f : InternalFunction)
  | host (modIdx funcIdx : Nat)
deriving DecidableEq, Repr

/-- src/function.rs, struct `Function`. -/
structure Function where
  name : String
  funcType : FunctionType
  body : FunctionBody
deriving DecidableEq, Repr

def Function.paramCount (f : Function) : Nat := f.funcType.paramCount

/-- Lift a stack-level trap into the execution error type (the `?` operator
of the Rust sources). -/
def liftT : Except TrapKind α → Except VmErr α
  | .ok a => .ok a
  | .error k => .error (.trap k)

/-- `State::get_function` (src/vm.rs): index into the function table, trap
`InvalidFunctionAddr` when out of range. -/
def getFunction (funcs : List Function) (addr : Nat) : Except TrapKind Function :=
  match funcs[addr]? with
  | some f => .ok f
  | none => .error .InvalidFunctionAddr

/-- Result of executing one instruction of `run_function`: fall through to
the `pc == pc_end` check, continue at a branch target, or leave the loop with
the optional raw return cell. -/
inductive StepRes where
  | next (st : Stack)
  | jump (pc : Nat) (st : Stack)
  | ret (r : Option Nat) (st : Stack)
deriving DecidableEq, Repr

def StepRes.bp : StepRes → Nat
  | .next st => st.bp
  | .jump _ st => st.bp
  | .ret _ st => st.bp

mutual

/-- `Function::call` (src/function.rs): push the frame, run the body, pop the
frame.  A `Host` body is a `todo!()`.  The raw return cell is threaded to the
caller (`pop_typed` in `run_function` tags it, and src/vm.rs consumes the raw
cell again via `ret.0`; the embedding keeps the cell). -/
def funcCall (fuel : Nat) (funcs : List Function) (f : Function) (st : Stack) :
    Except VmErr (Option Nat × Stack) :=
  match fuel with
  | 0 => .error .outOfFuel
  | fuel + 1 =>
    match f.body with
    | .internal body => do
      let (oldBp, st) ← liftT (st.pushFrame f.paramCount)
      let (ret, st) ← runFunction fuel funcs f body st
      .ok (ret, st.popFrame oldBp)
    | .host _ _ => .error .panicked

/-- `run_function` up to the loop: reserve locals, return `None` on an empty
body, else enter the loop at `pc = 0` with `pc_end = code.len() - 1`. -/
def runFunction (fuel : Nat) (funcs : List Function) (f : Function)
    (body : InternalFunction) (st : Stack) : Except VmErr (Option Nat × Stack) :=
  match fuel with
  | 0 => .error .outOfFuel
  | fuel + 1 =>
    let st := st.reserveLocals body.localTypes.length
    if body.code.length = 0 then .ok (none, st)
    else runLoop fuel funcs f body.code (body.code.length - 1) 0 st

/-- The fetch/execute loop of `run_function`: fetch `code[pc]` (a Rust index
panic when out of range), execute, then either continue at a branch target,
stop at `pc == pc_end`, or advance to `pc + 1`. -/
def runLoop (fuel : Nat) (funcs : List Function) (f : Function) (code : List Instr)
    (pcEnd pc : Nat) (st : Stack) : Except VmErr (Option Nat × Stack) :=
  match fuel with
  | 0 => .error .outOfFuel
  | fuel + 1 =>
    match code[pc]? with
    | none => .error .panicked
    | some op => do
      let step ← execInstr fuel funcs f op st
      match step with
      | .jump target st => runLoop fuel funcs f code pcEnd target st
      | .ret r st => .ok (r, st)
      | .next st =>
        if pc = pcEnd then .ok (none, st)
        else runLoop fuel funcs f code pcEnd (pc + 1) st

/-- One arm of the `match op` in `run_function`.  The fuel is decremented on
entry (so that the mutual recursion is structural on fuel); it is consumed
only by the `Call` arm. -/
def execInstr (fuel : Nat) (funcs : List Function) (f : Function) (op : Instr)
    (st : Stack) : Except VmErr StepRes :=
  match fuel with
  | 0 => .error .outOfFuel
  | fuel + 1 =>
  match op with
  | .Br target => .ok (.jump target st)
  | .BrIfEqz target => do
    let (v, st) ← liftT st.popVal
    if v = 0 then .ok (.jump target st) else .ok (.next st)
  | .BrIfNez target => do
    let (v, st) ← liftT st.popVal
    if v ≠ 0 then .ok (.jump target st) else .ok (.next st)
  | .Unreachable => .error (.trap .Unreachable)
  | .Return =>
    match f.funcType.retType with
    | some _ => do
      let (v, st) ← liftT st.popVal
      .ok (.ret (some v) st)
    | none => .ok (.ret none st)
  | .Call idx => do
    let g ← liftT (getFunction funcs idx)
    let (ret, st) ← funcCall fuel funcs g st
    match ret with
    | some r => do
      let st ← liftT (st.pushVal r)
      .ok (.next st)
    | none => .ok (.next st)
  | .GetLocal i => do
    let v ← liftT (st.getLocalVal i)
    let st ← liftT (st.pushVal v)
    .ok (.next st)
  | .SetLocal i => do
    let (v, st) ← liftT st.popVal
    let st ← liftT (st.setLocalVal i v)
    .ok (.next st)
  | .TeeLocal i => do
    let v ← liftT st.topVal
    let st ← liftT (st.setLocalVal i v)
    .ok (.next st)
  | .I32Const v => do
    let st ← liftT (st.pushVal (intToCell v))
    .ok (.next st)
  | .I64Const v => do
    let st ← liftT (st.pushVal (intToCell v))
    .ok (.next st)
  | .I32Eqz => do let st ← liftT (i32_eqz st); .ok (.next st)
  | .I32Add => do let st ← liftT (i32_add st); .ok (.next st)
  | .I32Sub => do let st ← liftT (i32_sub st); .ok (.next st)
  | .I32DivS => do let st ← liftT (i32_div_s st); .ok (.next st)
  | .I32DivU => do let st ← liftT (i32_div_u st); .ok (.next st)
  | .I32RemS => do let st ← liftT (i32_rem_s st); .ok (.next st)
  | .I32RemU => do let st ← liftT (i32_rem_u st); .ok (.next st)
  | .I32Shl => do let st ← liftT (i32_shl st); .ok (.next st)
  | .I32ShrS => do let st ← liftT (i32_shr_s st); .ok (.next st)
  | .I32ShrU => do let st ← liftT (i32_shr_u st); .ok (.next st)
  | .I64Eqz => do let st ← liftT (i64_eqz st); .ok (.next st)
  | .I64LtS => do let st ← liftT (i64_lt_s st); .ok (.next st)
  | .I64Add => do let st ← liftT (i64_add st); .ok (.next st)
  | .I64Sub => do let st ← liftT (i64_sub st); .ok (.next st)
  | .I64Mul => do let st ← liftT (i64_mul st); .ok (.next st)
  | .I64DivS => do let st ← liftT (i64_div_s st); .ok (.next st)
  | .I64DivU => do let st ← liftT (i64_div_u st); .ok (.next st)
  | .I64RemS => do let st ← liftT (i64_rem_s st); .ok (.next st)
  | .I64RemU => do let st ← liftT (i64_rem_u st); .ok (.next st)
  | .I64Shl => do let st ← liftT (i64_shl st); .ok (.next st)
  | .I64ShrS => do let st ← liftT (i64_shr_s st); .ok (.next st)
  | .I64ShrU => do let st ← liftT (i64_shr_u st); .ok (.next st)
  | .Todo => .error .panicked

end

/-- `Value::I32(ret.0 as i32)` and friends: tag a raw cell at the declared
return type (src/vm.rs, `Store::call`). -/
def tagCell : ValueType → Nat → Value
  | .I32, c => .I32 (toI32 c)
  | .I64, c => .I64 (toI64 c)
  | .F32, c => .F32 (c % 2 ^ 32)
  | .F64, c => .F64 (c % 2 ^ 64)

/-- The return-conversion step of `Store::call` (src/vm.rs lines 42-55): a
present raw cell is tagged at the declared return type, and is an
`UnexpectedSignature` runtime error when the function type is void; an absent
cell yields `None`. -/
def convertRet (f : Function) (ret : Option Nat) : Except VmErr (Option Value) :=
  match ret with
  | some r =>
    match f.funcType.retType with
    | some t => .ok (some (tagCell t r))
    | none => .error (.trap .UnexpectedSignature)
  | none => .ok none

/-- `Store::call` (src/vm.rs): push the params, resolve the function, read
`params[0]` to seed `l0` (a Rust index panic when `params` is empty — there
is no arity guard in the source), invoke, convert the raw return cell.  The
`l0` cell itself is unused by the threaded back-end in src/function.rs. -/
def storeCall (fuel : Nat) (funcs : List Function) (st : Stack) (addr : Nat)
    (params : List Value) : Except VmErr (Option Value × Stack) := do
  let (_len, st) ← liftT (st.pushParams params)
  let f ← liftT (getFunction funcs addr)
  match params.head? with
  | none => .error .panicked
  | some _p0 =>
    let (ret, st) ← funcCall fuel funcs f st
    let v ← convertRet f ret
    .ok (v, st)

/-! The label protocol of the translation helper `Sink` (src/isa.rs).  Only
the shape of instructions matters for relocation: the three branch forms
carry an embedded target PC, and patching any other instruction is an
`unreachable!()` panic.  Partial functions return `Option`; `none` is a Rust
panic (a slice index out of bounds or the `unreachable!()` arm). -/

inductive SInstr where
  | Br (pc : Nat)
  | BrIfEqz (pc : Nat)
  | BrIfNez (pc : Nat)
  | NonBranch
deriving DecidableEq, Repr

/-- src/isa.rs, struct `Label`: optional resolved PC plus relocation sites. -/
structure Label where
  pc : Option Nat
  reloc : List Nat
deriving DecidableEq, Repr

/-- The parts of src/isa.rs `Sink` that the label protocol touches. -/
structure Sink where
  code : List SInstr
  labels : List Label
deriving DecidableEq, Repr

/-- `Sink::pc`: the current emit position. -/
def Sink.emitPc (s : Sink) : Nat := s.code.length

/-- `PC::max_value()` for the 32-bit program counter type. -/
def PCmax : Nat := 2 ^ 32 - 1

/-- `Sink::ref_label`: if the label is resolved return its PC unchanged;
otherwise record the current PC as a relocation site and return the
placeholder `PC::MAX`. -/
def Sink.refLabel (s : Sink) (id : Nat) : Option (Nat × Sink) :=
  match s.labels[id]? with
  | none => none
  | some lab =>
    match lab.pc with
    | some pc => some (pc, s)
    | none =>
      some (PCmax,
        { s with labels := s.labels.set id { lab with reloc := lab.reloc ++ [s.emitPc] } })

/-- Rewrite the embedded target PC of a branch instruction; any other
instruction is the `unreachable!()` arm of `resolve_label`. -/
def patchInstr (op : SInstr) (pc : Nat) : Option SInstr :=
  match op with
  | .Br _ => some (.Br pc)
  | .BrIfEqz _ => some (.BrIfEqz pc)
  | .BrIfNez _ => some (.BrIfNez pc)
  | .NonBranch => none

/-- The relocation loop of `resolve_label`: rewrite `code[site]` for every
recorded site, in order. -/
def patchAll (code : List SInstr) (sites : List Nat) (pc : Nat) : Option (List SInstr) :=
  match sites with
  | [] => some code
  | site :: rest =>
    match code[site]? with
    | none => none
    | some op =>
      match patchInstr op pc with
      | none => none
      | some op2 => patchAll (code.set site op2) rest pc

/-- `Sink::resolve_label`: set the label PC to the current emit position and
rewrite every recorded relocation site. -/
def Sink.resolveLabel (s : Sink) (id : Nat) : Option Sink :=
  match s.labels[id]? with
  | none => none
  | some lab =>
    let labelPc := s.emitPc
    match patchAll s.code lab.reloc labelPc with
    | none => none
    | some code => some { code := code, labels := s.labels.set id { lab with pc := some labelPc } }

/-! The closure back-end (src/compiler.rs): the `Action` protocol and
`Block::run`.  A compiled block holds an ordered list of eval thunks; a thunk
is either an opaque state transformer (the boxed closures built by the
compiler) or the closure that runs a compiled sub-block — the shape
`Ev.sub` mirrors `block.push(Box::new(move |...| sub_block.run(...)))`.  The
mutable execution state seen by a thunk (the store and the `l0` register) is
`CStore`. -/

/-- The `(store, l0)` pair threaded through every eval thunk. -/
structure CStore where
  stack : Stack
  l0 : Nat
deriving DecidableEq, Repr

/-- src/compiler.rs, enum `Action`. -/
inductive Action where
  | Return (v : Option Nat)
  | End
  | Branch (d : Nat)
deriving DecidableEq, Repr

/-- src/compiler.rs, enum `BlockKind`. -/
inductive BlockKind where
  | block
  | loop
  | ifKind
  | elseKind
deriving DecidableEq, Repr

/-- An entry of `Block::eval`. -/
inductive Ev where
  | thunk (f : CStore → Except TrapKind (Action × CStore))
  | sub (kind : BlockKind) (evals : List Ev)

mutual

/-- `Block::run`: the `'repeat` loop around the thunk list. -/
def runBlock (fuel : Nat) (kind : BlockKind) (evals : List Ev) (st : CStore) :
    Except VmErr (Action × CStore) :=
  match fuel with
  | 0 => .error .outOfFuel
  | fuel + 1 => runList fuel kind evals evals st

/-- The `for f in self.eval.iter()` body of `Block::run`: `all` is the full
thunk list (needed to restart a loop), `rem` the thunks still to run. -/
def runList (fuel : Nat) (kind : BlockKind) (all rem : List Ev) (st : CStore) :
    Except VmErr (Action × CStore) :=
  match fuel with
  | 0 => .error .outOfFuel
  | fuel + 1 =>
    match rem with
    | [] => .ok (.End, st)
    | e :: rest => do
      let (a, st) ← runEv fuel e st
      match a with
      | .Return v => .ok (.Return v, st)
      | .End => runList fuel kind all rest st
      | .Branch 0 =>
        if kind = .loop then runBlock fuel kind all st
        else .ok (.End, st)
      | .Branch (d + 1) => .ok (.Branch d, st)

/-- Evaluate one entry: call the boxed closure, or run the sub-block. -/
def runEv (fuel : Nat) (e : Ev) (st : CStore) : Except VmErr (Action × CStore) :=
  match fuel with
  | 0 => .error .outOfFuel
  | fuel + 1 =>
    match e with
    | .thunk f => liftT (f st)
    | .sub kind evals => runBlock fuel kind evals st

end

/-! Helper lemmas: the stack primitives and kernels never move the frame
base pointer; only `push_frame` and `pop_frame` do. -/

theorem resizeArr_size (a : Array Nat) (n : Nat) : (resizeArr a n).size = n := by
  unfold resizeArr
  split
  · simp [Array.size_extract]
    omega
  · simp [Array.size_append, Array.size_mkArray]
    omega

theorem popFrame_spec (s : Stack) (oldBp : Nat) :
    (s.popFrame oldBp).bp = oldBp ∧ (s.popFrame oldBp).stack.size = s.bp := by
  constructor
  · rfl
  · simp [Stack.popFrame, resizeArr_size]

theorem pushFrame_spec {s : Stack} {p oldBp : Nat} {s2 : Stack}
    (h : s.pushFrame p = .ok (oldBp, s2)) :
    oldBp = s.bp ∧ s2.bp = s.stack.size - p ∧ s2.stack = s.stack ∧ s2.limit = s.limit := by
  unfold Stack.pushFrame Stack.frameSize at h
  split at h
  · simp [Bind.bind, Except.bind] at h
    split at h
    · exact absurd h (by simp)
    · simp at h
      obtain ⟨h1, h2⟩ := h
      subst h1; subst h2
      exact ⟨rfl, rfl, rfl, rfl⟩
  · exact absurd h (by simp [Bind.bind, Except.bind])

theorem popVal_spec {s : Stack} {v : Nat} {s2 : Stack} (h : s.popVal = .ok (v, s2)) :
    s2.bp = s.bp ∧ s2.limit = s.limit ∧ s2.stack.size + 1 = s.stack.size := by
  unfold Stack.popVal at h
  split at h
  · rename_i w hb
    simp at h
    obtain ⟨h1, h2⟩ := h
    subst h2
    refine ⟨rfl, rfl, ?_⟩
    have : s.stack.size ≠ 0 := by
      intro hz
      rw [Array.eq_empty_of_size_eq_zero hz] at hb
      simp [Array.back?] at hb
    simp [Array.size_pop]
    omega
  · exact Except.noConfusion h

theorem pushVal_spec {s : Stack} {v : Nat} {s2 : Stack} (h : s.pushVal v = .ok s2) :
    s2.bp = s.bp ∧ s2.limit = s.limit ∧ s2.stack.size = s.stack.size + 1 := by
  unfold Stack.pushVal at h
  split at h
  · exact Except.noConfusion h
  · simp at h
    subst h
    simp

theorem popPair_spec {s : Stack} {l r : Nat} {s2 : Stack}
    (h : s.popPair = .ok ((l, r), s2)) :
    s2.bp = s.bp ∧ s2.limit = s.limit ∧ s2.stack.size + 2 = s.stack.size := by
  unfold Stack.popPair at h
  rcases h1 : s.popVal with e | ⟨v1, sa⟩ <;> rw [h1] at h
  · exact Except.noConfusion h
  · simp only [Bind.bind, Except.bind] at h
    rcases h2 : sa.popVal with e | ⟨v2, sb⟩ <;> rw [h2] at h
    · exact Except.noConfusion h
    · injection h with hp
      rw [Prod.mk.injEq] at hp
      obtain ⟨hlr, hsb⟩ := hp
      subst hsb
      obtain ⟨a1, a2, a3⟩ := @popVal_spec s v1 sa h1
      obtain ⟨b1, b2, b3⟩ := @popVal_spec sa v2 sb h2
      show sb.bp = s.bp ∧ sb.limit = s.limit ∧ sb.stack.size + 2 = s.stack.size
      omega

theorem setLocalVal_spec {s : Stack} {i v : Nat} {s2 : Stack}
    (h : s.setLocalVal i v = .ok s2) :
    s2.bp = s.bp ∧ s2.limit = s.limit ∧ s2.stack.size = s.stack.size := by
  unfold Stack.setLocalVal at h
  split at h
  · simp at h
    subst h
    simp [Array.setD]
    split <;> simp
  · exact Except.noConfusion h

theorem intBinop_bp {op : Nat → Nat → Nat} {s s2 : Stack} (h : intBinop op s = .ok s2) :
    s2.bp = s.bp := by
  unfold intBinop at h
  cases h1 : s.popPair with
  | error e => rw [h1] at h; exact Except.noConfusion h
  | ok p =>
    obtain ⟨⟨l, r⟩, sa⟩ := p
    rw [h1] at h
    simp [Bind.bind, Except.bind] at h
    obtain ⟨a1, _, _⟩ := popPair_spec h1
    obtain ⟨b1, _, _⟩ := pushVal_spec h
    omega

theorem intBinopDiv_bp {chk : Nat → Nat → Option Nat} {rz : Nat → Bool} {s s2 : Stack}
    (h : intBinopDiv chk rz s = .ok s2) : s2.bp = s.bp := by
  unfold intBinopDiv at h
  cases h1 : s.popPair with
  | error e => rw [h1] at h; exact Except.noConfusion h
  | ok p =>
    obtain ⟨⟨l, r⟩, sa⟩ := p
    rw [h1] at h
    simp [Bind.bind, Except.bind] at h
    obtain ⟨a1, _, _⟩ := popPair_spec h1
    split at h
    · exact Except.noConfusion h
    · obtain ⟨b1, _, _⟩ := pushVal_spec h
      omega

theorem intRelop_bp {rel : Nat → Nat → Bool} {s s2 : Stack} (h : intRelop rel s = .ok s2) :
    s2.bp = s.bp := by
  unfold intRelop at h
  cases h1 : s.popVal with
  | error e => rw [h1] at h; exact Except.noConfusion h
  | ok p1 =>
    obtain ⟨v1, sa⟩ := p1
    rw [h1] at h
    simp [Bind.bind, Except.bind] at h
    cases h2 : sa.popVal with
    | error e => rw [h2] at h; exact Except.noConfusion h
    | ok p2 =>
      obtain ⟨v2, sb⟩ := p2
      rw [h2] at h
      simp at h
      obtain ⟨a1, _, _⟩ := popVal_spec h1
      obtain ⟨b1, _, _⟩ := popVal_spec h2
      obtain ⟨c1, _, _⟩ := pushVal_spec h
      omega

theorem intRelop1_bp {rel : Nat → Bool} {s s2 : Stack} (h : intRelop1 rel s = .ok s2) :
    s2.bp = s.bp := by
  unfold intRelop1 at h
  cases h1 : s.popVal with
  | error e => rw [h1] at h; exact Except.noConfusion h
  | ok p1 =>
    obtain ⟨v1, sa⟩ := p1
    rw [h1] at h
    simp [Bind.bind, Except.bind] at h
    obtain ⟨a1, _, _⟩ := popVal_spec h1
    obtain ⟨c1, _, _⟩ := pushVal_spec h
    omega

theorem pushParams_spec {s : Stack} {params : List Value} {len : Nat} {s2 : Stack}
    (h : s.pushParams params = .ok (len, s2)) :
    s2.bp = s.bp ∧ s2.limit = s.limit ∧ s2.stack.size = s.stack.size + params.length := by
  unfold Stack.pushParams Stack.checkOverflow at h
  split at h
  · simp [Bind.bind, Except.bind] at h
    obtain ⟨h1, h2⟩ := h
    subst h2
    simp [Array.size_append]
  · exact absurd h (by simp [Bind.bind, Except.bind])

theorem liftT_ok {x : Except TrapKind α} {a : α} (h : liftT x = .ok a) : x = .ok a := by
  cases x with
  | ok b => simp [liftT] at h; subst h; rfl
  | error k => simp [liftT] at h

theorem reserveLocals_bp (s : Stack) (n : Nat) : (s.reserveLocals n).bp = s.bp := rfl

/-- A kernel dispatch arm of `execInstr`: lift the kernel, wrap the new stack
in `StepRes.next`. -/
theorem liftBindNext_bp {k : Stack → Except TrapKind Stack} {st : Stack} {step : StepRes}
    (hk : ∀ s s2, k s = .ok s2 → s2.bp = s.bp)
    (h : (liftT (k st) >>= fun st2 => Except.ok (StepRes.next st2)) = Except.ok step) :
    step.bp = st.bp := by
  rcases hx : k st with e | s2 <;> rw [hx] at h <;>
    simp [liftT, Bind.bind, Except.bind] at h
  subst h
  exact hk st s2 hx

/-- Executing one instruction never moves the frame base pointer, given that
nested calls at the current fuel level do not move it. -/
theorem execInstr_bp (fuel : Nat) (funcs : List Function) (f : Function)
    (hfc : ∀ (g : Function) (st : Stack) (r : Option Nat) (st2 : Stack),
      funcCall fuel funcs g st = .ok (r, st2) → st2.bp = st.bp) :
    ∀ (op : Instr) (st : Stack) (step : StepRes),
      execInstr (fuel + 1) funcs f op st = .ok step → step.bp = st.bp := by
  intro op st step h
  cases op with
  | Br target =>
    simp [execInstr] at h
    subst h
    rfl
  | BrIfEqz target =>
    simp only [execInstr] at h
    rcases hx : st.popVal with e | ⟨v, s2⟩ <;> rw [hx] at h <;>
      simp [liftT, Bind.bind, Except.bind] at h
    have hbp := (popVal_spec hx).1
    split at h <;> simp at h <;> subst h <;> exact hbp
  | BrIfNez target =>
    simp only [execInstr] at h
    rcases hx : st.popVal with e | ⟨v, s2⟩ <;> rw [hx] at h <;>
      simp [liftT, Bind.bind, Except.bind] at h
    have hbp := (popVal_spec hx).1
    split at h <;> simp at h <;> subst h <;> exact hbp
  | Unreachable => simp [execInstr] at h
  | Return =>
    simp only [execInstr] at h
    cases hrt : f.funcType.retType with
    | none =>
      rw [hrt] at h
      simp at h
      subst h
      rfl
    | some t =>
      rw [hrt] at h
      rcases hx : st.popVal with e | ⟨v, s2⟩ <;> rw [hx] at h <;>
        simp [liftT, Bind.bind, Except.bind] at h
      subst h
      exact (popVal_spec hx).1
  | Call idx =>
    simp only [execInstr] at h
    rcases hg : getFunction funcs idx with e | g <;> rw [hg] at h <;>
      simp [liftT, Bind.bind, Except.bind] at h
    rcases hc : funcCall fuel funcs g st with e | ⟨ret, s2⟩ <;> rw [hc] at h <;>
      simp [Bind.bind, Except.bind] at h
    have hbp : s2.bp = st.bp := hfc g st ret s2 hc
    cases ret with
    | none =>
      simp at h
      subst h
      exact hbp
    | some rv =>
      simp only at h
      rcases hp : s2.pushVal rv with e | s3 <;> rw [hp] at h <;>
        simp [liftT, Bind.bind, Except.bind] at h
      subst h
      have := (pushVal_spec hp).1
      show s3.bp = st.bp
      omega
  | GetLocal i =>
    simp only [execInstr] at h
    rcases hx : st.getLocalVal i with e | v <;> rw [hx] at h <;>
      simp [liftT, Bind.bind, Except.bind] at h
    rcases hp : st.pushVal v with e | s2 <;> rw [hp] at h <;>
      simp [liftT, Bind.bind, Except.bind] at h
    subst h
    exact (pushVal_spec hp).1
  | SetLocal i =>
    simp only [execInstr] at h
    rcases hx : st.popVal with e | ⟨v, s2⟩ <;> rw [hx] at h <;>
      simp [liftT, Bind.bind, Except.bind] at h
    rcases hp : s2.setLocalVal i v with e | s3 <;> rw [hp] at h <;>
      simp [liftT, Bind.bind, Except.bind] at h
    subst h
    have h1 := (popVal_spec hx).1
    have h2 := (setLocalVal_spec hp).1
    show s3.bp = st.bp
    omega
  | TeeLocal i =>
    simp only [execInstr] at h
    rcases hx : st.topVal with e | v <;> rw [hx] at h <;>
      simp [liftT, Bind.bind, Except.bind] at h
    rcases hp : st.setLocalVal i v with e | s2 <;> rw [hp] at h <;>
      simp [liftT, Bind.bind, Except.bind] at h
    subst h
    exact (setLocalVal_spec hp).1
  | I32Const v =>
    simp only [execInstr] at h
    rcases hp : st.pushVal (intToCell v) with e | s2 <;> rw [hp] at h <;>
      simp [liftT, Bind.bind, Except.bind] at h
    subst h
    exact (pushVal_spec hp).1
  | I64Const v =>
    simp only [execInstr] at h
    rcases hp : st.pushVal (intToCell v) with e | s2 <;> rw [hp] at h <;>
      simp [liftT, Bind.bind, Except.bind] at h
    subst h
    exact (pushVal_spec hp).1
  | I32Eqz =>
    exact liftBindNext_bp (fun s s2 hk => intRelop1_bp hk) (by simpa only [execInstr, i32_eqz] using h)
  | I32Add =>
    exact liftBindNext_bp (fun s s2 hk => intBinop_bp hk) (by simpa only [execInstr, i32_add] using h)
  | I32Sub =>
    exact liftBindNext_bp (fun s s2 hk => intBinop_bp hk) (by simpa only [execInstr, i32_sub] using h)
  | I32DivS =>
    exact liftBindNext_bp (fun s s2 hk => intBinopDiv_bp hk) (by simpa only [execInstr, i32_div_s] using h)
  | I32DivU =>
    exact liftBindNext_bp (fun s s2 hk => intBinopDiv_bp hk) (by simpa only [execInstr, i32_div_u] using h)
  | I32RemS =>
    exact liftBindNext_bp (fun s s2 hk => intBinopDiv_bp hk) (by simpa only [execInstr, i32_rem_s] using h)
  | I32RemU =>
    exact liftBindNext_bp (fun s s2 hk => intBinopDiv_bp hk) (by simpa only [execInstr, i32_rem_u] using h)
  | I32Shl =>
    exact liftBindNext_bp (fun s s2 hk => intBinop_bp hk) (by simpa only [execInstr, i32_shl] using h)
  | I32ShrS =>
    exact liftBindNext_bp (fun s s2 hk => intBinop_bp hk) (by simpa only [execInstr, i32_shr_s] using h)
  | I32ShrU =>
    exact liftBindNext_bp (fun s s2 hk => intBinop_bp hk) (by simpa only [execInstr, i32_shr_u] using h)
  | I64Eqz =>
    exact liftBindNext_bp (fun s s2 hk => intRelop1_bp hk) (by simpa only [execInstr, i64_eqz] using h)
  | I64LtS =>
    exact liftBindNext_bp (fun s s2 hk => intRelop_bp hk) (by simpa only [execInstr, i64_lt_s] using h)
  | I64Add =>
    exact liftBindNext_bp (fun s s2 hk => intBinop_bp hk) (by simpa only [execInstr, i64_add] using h)
  | I64Sub =>
    exact liftBindNext_bp (fun s s2 hk => intBinop_bp hk) (by simpa only [execInstr, i64_sub] using h)
  | I64Mul =>
    exact liftBindNext_bp (fun s s2 hk => intBinop_bp hk) (by simpa only [execInstr, i64_mul] using h)
  | I64DivS =>
    exact liftBindNext_bp (fun s s2 hk => intBinopDiv_bp hk) (by simpa only [execInstr, i64_div_s] using h)
  | I64DivU =>
    exact liftBindNext_bp (fun s s2 hk => intBinopDiv_bp hk) (by simpa only [execInstr, i64_div_u] using h)
  | I64RemS =>
    exact liftBindNext_bp (fun s s2 hk => intBinopDiv_bp hk) (by simpa only [execInstr, i64_rem_s] using h)
  | I64RemU =>
    exact liftBindNext_bp (fun s s2 hk => intBinopDiv_bp hk) (by simpa only [execInstr, i64_rem_u] using h)
  | I64Shl =>
    exact liftBindNext_bp (fun s s2 hk => intBinop_bp hk) (by simpa only [execInstr, i64_shl] using h)
  | I64ShrS =>
    exact liftBindNext_bp (fun s s2 hk => intBinop_bp hk) (by simpa only [execInstr, i64_shr_s] using h)
  | I64ShrU =>
    exact liftBindNext_bp (fun s s2 hk => intBinop_bp hk) (by simpa only [execInstr, i64_shr_u] using h)
  | Todo => simp [execInstr] at h

/-- Joint frame discipline of the interpreter, by induction on fuel: a
successful `Function::call` restores the caller base pointer and leaves the
stack exactly `param_count` cells shorter, and the function body itself never
moves the base pointer. -/
theorem vm_bp (fuel : Nat) :
    (∀ (funcs : List Function) (f : Function) (st : Stack) (r : Option Nat) (st2 : Stack),
      funcCall fuel funcs f st = .ok (r, st2) →
        st2.bp = st.bp ∧ st2.stack.size = st.stack.size - f.paramCount) ∧
    (∀ (funcs : List Function) (f : Function) (body : InternalFunction) (st : Stack)
      (r : Option Nat) (st2 : Stack),
      runFunction fuel funcs f body st = .ok (r, st2) → st2.bp = st.bp) ∧
    (∀ (funcs : List Function) (f : Function) (code : List Instr) (pcEnd pc : Nat)
      (st : Stack) (r : Option Nat) (st2 : Stack),
      runLoop fuel funcs f code pcEnd pc st = .ok (r, st2) → st2.bp = st.bp) ∧
    (∀ (funcs : List Function) (f : Function) (op : Instr) (st : Stack) (step : StepRes),
      execInstr fuel funcs f op st = .ok step → step.bp = st.bp) := by
  induction fuel with
  | zero =>
    refine ⟨?_, ?_, ?_, ?_⟩
    · intro funcs f st r st2 h
      simp [funcCall] at h
    · intro funcs f body st r st2 h
      simp [runFunction] at h
    · intro funcs f code pcEnd pc st r st2 h
      simp [runLoop] at h
    · intro funcs f op st step h
      simp [execInstr] at h
  | succ n ih =>
    obtain ⟨ihc, ihf, ihl, ihe⟩ := ih
    have hc : ∀ (funcs : List Function) (f : Function) (st : Stack) (r : Option Nat)
        (st2 : Stack), funcCall (n + 1) funcs f st = .ok (r, st2) →
          st2.bp = st.bp ∧ st2.stack.size = st.stack.size - f.paramCount := by
      intro funcs f st r st2 h
      simp only [funcCall] at h
      cases hb : f.body with
      | host m g => rw [hb] at h; simp at h
      | internal body =>
        rw [hb] at h
        rcases h1 : st.pushFrame f.paramCount with e | ⟨oldBp, sa⟩ <;> rw [h1] at h <;>
          simp [liftT, Bind.bind, Except.bind] at h
        rcases h2 : runFunction n funcs f body sa with e | ⟨ret, sb⟩ <;> rw [h2] at h <;>
          simp [Bind.bind, Except.bind] at h
        obtain ⟨hr, hst2⟩ := h
        subst hst2
        obtain ⟨ho, hbp, hstk, _⟩ := pushFrame_spec h1
        have hrun := ihf funcs f body sa ret sb h2
        obtain ⟨p1, p2⟩ := popFrame_spec sb oldBp
        constructor
        · rw [p1, ho]
        · rw [p2, hrun, hbp]
    have hl : ∀ (funcs : List Function) (f : Function) (code : List Instr) (pcEnd pc : Nat)
        (st : Stack) (r : Option Nat) (st2 : Stack),
        runLoop (n + 1) funcs f code pcEnd pc st = .ok (r, st2) → st2.bp = st.bp := by
      intro funcs f code pcEnd pc st r st2 h
      simp only [runLoop] at h
      split at h
      · exact absurd h (by simp)
      · rename_i op hop
        rcases hs : execInstr n funcs f op st with e | step
        · rw [hs] at h
          exact absurd h (by simp [Bind.bind, Except.bind])
        · rw [hs] at h
          simp only [Bind.bind, Except.bind] at h
          have hstep : step.bp = st.bp := ihe funcs f op st step hs
          cases step with
          | jump target s2 =>
            have h2 : runLoop n funcs f code pcEnd target s2 = .ok (r, st2) := h
            have := ihl funcs f code pcEnd target s2 r st2 h2
            simp only [StepRes.bp] at hstep
            omega
          | ret rv s2 =>
            have h2 : (Except.ok (rv, s2) : Except VmErr (Option Nat × Stack)) = .ok (r, st2) := h
            injection h2 with hp
            rw [Prod.mk.injEq] at hp
            obtain ⟨h3, h4⟩ := hp
            simp only [StepRes.bp] at hstep
            subst h4
            exact hstep
          | next s2 =>
            simp only [StepRes.bp] at hstep
            have h2 : (if pc = pcEnd then (Except.ok (none, s2) : Except VmErr (Option Nat × Stack))
                else runLoop n funcs f code pcEnd (pc + 1) s2) = .ok (r, st2) := h
            split at h2
            · injection h2 with hp
              rw [Prod.mk.injEq] at hp
              obtain ⟨h3, h4⟩ := hp
              subst h4
              exact hstep
            · have := ihl funcs f code pcEnd (pc + 1) s2 r st2 h2
              omega
    have hf : ∀ (funcs : List Function) (f : Function) (body : InternalFunction) (st : Stack)
        (r : Option Nat) (st2 : Stack),
        runFunction (n + 1) funcs f body st = .ok (r, st2) → st2.bp = st.bp := by
      intro funcs f body st r st2 h
      simp only [runFunction] at h
      split at h
      · simp at h
        obtain ⟨_, h2⟩ := h
        subst h2
        rfl
      · have := ihl funcs f body.code (body.code.length - 1) 0 (st.reserveLocals body.localTypes.length) r st2 h
        simpa [reserveLocals_bp] using this
    have he : ∀ (funcs : List Function) (f : Function) (op : Instr) (st : Stack)
        (step : StepRes), execInstr (n + 1) funcs f op st = .ok step → step.bp = st.bp :=
      fun funcs f =>
        execInstr_bp n funcs f (fun g s r2 s2 hgc => (ihc funcs g s r2 s2 hgc).1)
    exact ⟨hc, hf, hl, he⟩

/-! Claim theorems. -/

/-- C1: the claim states that the shift kernels compute the result of
shifting by `k mod width`, in particular `k mod 64` for the 64-bit kernels.
The source masks the shift count with `0x1F` (`k mod 32`) in every width
instantiation of the kernel macro, so for `i64.shl` with `x = 1`, `k = 32`
the kernel returns `1` (a shift by `32 mod 32 = 0`), while a shift by
`32 mod 64 = 32` yields `2^32 = 4294967296 ≠ 1`.  This theorem evaluates the
kernel at that failing input; the 32-bit kernel at the same input also
returns `1`, which for 32-bit width is the claimed `k mod 32` behaviour. -/
theorem c1_shift_mask_failing_input :
    i64_shl ⟨#[1, 32], 0, 16⟩ = .ok ⟨#[1], 0, 16⟩ ∧
    1 * 2 ^ (32 % 64) % 2 ^ 64 = 4294967296 ∧
    (1 : Nat) ≠ 4294967296 ∧
    i32_shl ⟨#[1, 32], 0, 16⟩ = .ok ⟨#[1], 0, 16⟩ := by
  refine ⟨by decide, by decide, by decide, by decide⟩

/-- C2: the signed kernels trap as the claim states (`DivisionByZero` on a
zero divisor, `InvalidConversionToInt` on `i64::MIN / -1`, for `rem_s` too),
but the unsigned kernels are instantiated with the signed type in the source
(`impl_int_binops_div!(store, $type, checked_div, u64)` where `$type = i64`),
so `div_u` on the cells `0x8000_0000_0000_0000` and `0xFFFF_FFFF_FFFF_FFFF`
(unsigned operands `2^63` and `2^64 - 1`, whose unsigned quotient is `0`)
traps `InvalidConversionToInt` although the divisor is not zero,
contradicting the claim that the unsigned kernels trap only on a zero
divisor. -/
theorem c2_div_trap_failing_input :
    i64_div_u ⟨#[2 ^ 63, 2 ^ 64 - 1], 0, 16⟩ = .error .InvalidConversionToInt ∧
    (2 ^ 64 - 1 : Nat) ≠ 0 ∧
    i64_rem_u ⟨#[2 ^ 63, 2 ^ 64 - 1], 0, 16⟩ = .error .InvalidConversionToInt ∧
    i64_div_s ⟨#[2 ^ 63, 2 ^ 64 - 1], 0, 16⟩ = .error .InvalidConversionToInt ∧
    i64_rem_s ⟨#[2 ^ 63, 2 ^ 64 - 1], 0, 16⟩ = .error .InvalidConversionToInt ∧
    i64_div_s ⟨#[10, 0], 0, 16⟩ = .error .DivisionByZero ∧
    i64_rem_u ⟨#[10, 0], 0, 16⟩ = .error .DivisionByZero ∧
    i64_div_s ⟨#[intToCell (-7), 2], 0, 16⟩ = .ok ⟨#[intToCell (-3)], 0, 16⟩ := by
  refine ⟨by decide, by decide, by decide, by decide, by decide, by decide, by decide, by decide⟩

/-- C4 counterexample: the claim says local access succeeds only on the
locals region `[bp, bp + local_count)` of the callee.  Take the reachable
state with one cell `5` at `bp = 0` (a frame with `local_count = 1`) and one
operand `7` pushed on top (so `sbp = 1`): `get_local 1` reads the operand
slot, outside the locals region, and succeeds instead of trapping. -/
theorem c4_counterexample :
    Stack.pushVal ⟨#[5], 0, 16⟩ 7 = .ok ⟨#[5, 7], 0, 16⟩ ∧
    Stack.getLocalVal ⟨#[5, 7], 0, 16⟩ 1 = .ok 7 := by
  refine ⟨by decide, by decide⟩

/-- C4 amended: `get_local i` / `set_local i` succeed exactly on slot
`bp + i < len` — the whole current frame, operand stack included, not just
the locals region; an index with `bp + i ≥ len` traps `StackOverflow`; and
no access ever reads or writes a slot below `bp` (writes leave every slot
under `bp` unchanged), which is the half of the frame-isolation claim that
holds. -/
theorem c4_local_access (s : Stack) (i v : Nat) :
    (∀ h : s.bp + i < s.stack.size,
      s.getLocalVal i = .ok (s.stack.get ⟨s.bp + i, h⟩)) ∧
    (s.stack.size ≤ s.bp + i → s.getLocalVal i = .error .StackOverflow) ∧
    (∀ _h : s.bp + i < s.stack.size,
      s.setLocalVal i v = .ok { s with stack := s.stack.setD (s.bp + i) v }) ∧
    (s.stack.size ≤ s.bp + i → s.setLocalVal i v = .error .StackOverflow) ∧
    (∀ s2 : Stack, s.setLocalVal i v = .ok s2 →
      ∀ j, j < s.bp → s2.stack[j]? = s.stack[j]?) := by
  refine ⟨?_, ?_, ?_, ?_, ?_⟩
  · intro h
    unfold Stack.getLocalVal
    rw [Array.getElem?_lt s.stack h]
    rfl
  · intro h
    unfold Stack.getLocalVal
    rw [Array.getElem?_ge s.stack h]
  · intro h
    unfold Stack.setLocalVal
    rw [if_pos h]
  · intro h
    unfold Stack.setLocalVal
    rw [if_neg (by omega)]
  · intro s2 h2 j hj
    unfold Stack.setLocalVal at h2
    split at h2
    · rename_i hlt
      injection h2 with h3
      subst h3
      show (s.stack.setD (s.bp + i) v)[j]? = s.stack[j]?
      rw [Array.setD, dif_pos hlt]
      have hne : (s.bp + i : Nat) ≠ j := by omega
      simp [Array.getElem?_set_ne, hne]
    · exact Except.noConfusion h2

/-- C4 witness for the amended statement, at the concrete state of the
counterexample. -/
theorem c4_local_access_witness :
    Stack.getLocalVal ⟨#[5, 7], 0, 16⟩ 1 = .ok ((#[5, 7] : Array Nat).get ⟨0 + 1, by decide⟩) ∧
    Stack.getLocalVal ⟨#[5, 7], 0, 16⟩ 5 = .error .StackOverflow ∧
    Stack.setLocalVal ⟨#[5, 7], 1, 16⟩ 0 9 = .ok ⟨#[5, 9], 1, 16⟩ := by
  refine ⟨(c4_local_access ⟨#[5, 7], 0, 16⟩ 1 9).1 (by decide),
    (c4_local_access ⟨#[5, 7], 0, 16⟩ 5 9).2.1 (by decide), ?_⟩
  have := (c4_local_access ⟨#[5, 7], 1, 16⟩ 0 9).2.2.1 (by decide)
  rw [this]
  decide

/-- C5 counterexample: the claim says `pop` fails with `StackUnderflow` when
`len` reaches the `sbp` of the current frame.  First, the trap enum has no
`StackUnderflow` at all.  Second, in the reachable state built by pushing
one cell and entering a 0-param frame (`bp = 1`, so the frame operand stack
`[sbp, len)` is empty and `len = sbp = 1`), `pop_val` still succeeds and
removes the caller cell. -/
theorem c5_counterexample :
    Stack.pushFrame ⟨#[9], 0, 16⟩ 0 = .ok (0, ⟨#[9], 1, 16⟩) ∧
    Stack.popVal ⟨#[9], 1, 16⟩ = .ok (9, ⟨#[], 1, 16⟩) := by
  refine ⟨by decide, by decide⟩

/-- C5 amended: `pop_val` removes exactly one cell and fails — with trap
kind `StackOverflow`, the only stack trap in the source — exactly when the
whole cell vector is empty; the frame pointer `bp` imposes no lower bound. -/
theorem c5_pop_behaviour (s : Stack) :
    (s.stack.size = 0 → s.popVal = .error .StackOverflow) ∧
    (∀ h : 0 < s.stack.size,
      s.popVal = .ok (s.stack.get ⟨s.stack.size - 1, by omega⟩,
        { s with stack := s.stack.pop }) ∧
      ({ s with stack := s.stack.pop } : Stack).stack.size + 1 = s.stack.size) := by
  constructor
  · intro h
    unfold Stack.popVal
    rw [Array.back?, Array.get?_eq_getElem?, Array.getElem?_ge s.stack (by omega)]
  · intro h
    constructor
    · unfold Stack.popVal
      rw [Array.back?, Array.get?_eq_getElem?, Array.getElem?_lt s.stack (by omega)]
      rfl
    · simp [Array.size_pop]
      omega

/-- C5 witness for the amended statement. -/
theorem c5_pop_behaviour_witness :
    Stack.popVal ⟨#[], 3, 16⟩ = .error .StackOverflow ∧
    Stack.popVal ⟨#[4, 6], 0, 16⟩ =
      .ok ((#[4, 6] : Array Nat).get ⟨2 - 1, by decide⟩, ⟨#[4], 0, 16⟩) := by
  refine ⟨(c5_pop_behaviour ⟨#[], 3, 16⟩).1 (by decide), ?_⟩
  have := ((c5_pop_behaviour ⟨#[4, 6], 0, 16⟩).2 (by decide)).1
  rw [this]
  decide

/-- C10: `pop_pair` pops the top of stack as `right` and the cell beneath it
as `left`; consequently the non-commutative `sub` kernel applied to a stack
ending in `a, b` (with `b` on top) computes `a - b` (wrapping), treating the
top of stack as the right-hand operand. -/
theorem c10_pop_pair_order (s : Stack) (a b : Nat) :
    Stack.popPair ⟨(s.stack.push a).push b, s.bp, s.limit⟩ = .ok ((a, b), s) ∧
    (s.stack.size < s.limit →
      i64_sub ⟨(s.stack.push a).push b, s.bp, s.limit⟩ =
        .ok ⟨s.stack.push (intToCell (toI64 a - toI64 b)), s.bp, s.limit⟩) := by
  have hpp : Stack.popPair ⟨(s.stack.push a).push b, s.bp, s.limit⟩ = .ok ((a, b), s) := by
    simp [Stack.popPair, Stack.popVal, Array.back?_push, Array.pop_push, Bind.bind, Except.bind]
  refine ⟨hpp, ?_⟩
  intro hlim
  unfold i64_sub intBinop
  rw [hpp]
  simp only [Bind.bind, Except.bind]
  unfold Stack.pushVal
  rw [if_neg (by simp [Stack.len]; omega)]

/-- C10 witness for the conditional kernel part. -/
theorem c10_pop_pair_order_witness :
    Stack.popPair ⟨((#[] : Array Nat).push 5).push 3, 0, 16⟩ = .ok ((5, 3), ⟨#[], 0, 16⟩) ∧
    i64_sub ⟨((#[] : Array Nat).push 5).push 3, 0, 16⟩ =
      .ok ⟨(#[] : Array Nat).push (intToCell (toI64 5 - toI64 3)), 0, 16⟩ :=
  ⟨(c10_pop_pair_order ⟨#[], 0, 16⟩ 5 3).1,
   (c10_pop_pair_order ⟨#[], 0, 16⟩ 5 3).2 (by decide)⟩

/-- An exported identity function of type `i64 → i64`: its body returns the
single parameter. -/
def retFunc : Function :=
  ⟨"ret", ⟨[.I64], some .I64⟩, .internal ⟨[], [.Return]⟩⟩

/-- C3 counterexample: the claim says the stack length after a successful
`Store::call` is the entry length plus one when the function returns a
value.  Calling `retFunc` on the empty stack with one argument succeeds and
returns `Some(I64 7)`, yet the final stack length is `0`, equal to the entry
length — `pop_frame` truncates to the frame base and the return value is
delivered out of band, never pushed on the caller stack. -/
theorem c3_counterexample :
    storeCall 10 [retFunc] ⟨#[], 0, 1024⟩ 0 [.I64 7] =
      .ok (some (.I64 7), ⟨#[], 0, 1024⟩) ∧ (0 : Nat) ≠ 0 + 1 := by
  refine ⟨by decide, by decide⟩

/-- C3 amended: for every well-typed invocation (argument count equal to the
function parameter count), a successful `Store::call` leaves the stack
length exactly equal to its value at entry — plus zero, whether or not a
return value is produced; the return value travels in the call result. -/
theorem c3_stack_balance (fuel : Nat) (funcs : List Function) (st : Stack) (addr : Nat)
    (params : List Value) (f : Function) (r : Option Value) (st2 : Stack)
    (hf : getFunction funcs addr = .ok f)
    (hwt : params.length = f.paramCount)
    (h : storeCall fuel funcs st addr params = .ok (r, st2)) :
    st2.stack.size = st.stack.size := by
  simp only [storeCall] at h
  rcases hp : st.pushParams params with e | ⟨len, sa⟩ <;> rw [hp] at h <;>
    simp only [liftT, Bind.bind, Except.bind] at h
  · exact absurd h (by simp)
  rw [hf] at h
  simp only at h
  cases hh : params.head? with
  | none => rw [hh] at h; exact absurd h (by simp)
  | some p0 =>
    rw [hh] at h
    rcases hc : funcCall fuel funcs f sa with e | ⟨ret, stc⟩ <;> rw [hc] at h <;>
      simp only [Bind.bind, Except.bind] at h
    · exact absurd h (by simp)
    · rcases hcv : convertRet f ret with e | v <;> rw [hcv] at h <;>
        simp only [Bind.bind, Except.bind] at h
      · exact absurd h (by simp)
      · injection h with hpr
        rw [Prod.mk.injEq] at hpr
        obtain ⟨_, hst2⟩ := hpr
        subst hst2
        obtain ⟨_, hsz⟩ := (vm_bp fuel).1 funcs f sa ret stc hc
        obtain ⟨_, _, hps⟩ := pushParams_spec hp
        rw [hsz, hps, hwt]
        omega

/-- C3 witness for the amended statement, at the counterexample input. -/
theorem c3_stack_balance_witness :
    getFunction [retFunc] 0 = .ok retFunc ∧
    ([Value.I64 7] : List Value).length = retFunc.paramCount ∧
    storeCall 10 [retFunc] ⟨#[], 0, 1024⟩ 0 [.I64 7] =
      .ok (some (.I64 7), ⟨#[], 0, 1024⟩) ∧
    ((⟨#[], 0, 1024⟩ : Stack).stack.size = (⟨#[], 0, 1024⟩ : Stack).stack.size) :=
  ⟨by decide, by decide, by decide,
   c3_stack_balance 10 [retFunc] ⟨#[], 0, 1024⟩ 0 [.I64 7] retFunc (some (.I64 7))
     ⟨#[], 0, 1024⟩ (by decide) (by decide) (by decide)⟩

/-- An exported function with no parameters and no return value. -/
def voidFunc : Function :=
  ⟨"nop", ⟨[], none⟩, .internal ⟨[], []⟩⟩

/-- C7: the claim says `Store::call` reads `params[0]` only when the arity is
at least 1, so a zero-parameter export called with an empty argument slice
succeeds.  The source reads `params[0]` unconditionally
(`let mut l0 = StackValue::from(params[0]);`), which panics on the empty
slice, even though the function itself runs fine when invoked directly. -/
theorem c7_params_head_panic :
    storeCall 10 [voidFunc] ⟨#[], 0, 1024⟩ 0 [] = .error .panicked ∧
    funcCall 10 [voidFunc] voidFunc ⟨#[], 0, 1024⟩ = .ok (none, ⟨#[], 0, 1024⟩) := by
  refine ⟨by decide, by decide⟩

/-- C8: the return-conversion step of `Store::call` (applied to every raw
cell an invocation produces) yields `UnexpectedSignature` when the declared
function type is void but a cell is present, and tags the cell at the
declared return type otherwise. -/
theorem c8_ret_conversion (f : Function) (c : Nat) :
    (f.funcType.retType = none →
      convertRet f (some c) = .error (.trap .UnexpectedSignature)) ∧
    (∀ t, f.funcType.retType = some t →
      convertRet f (some c) = .ok (some (tagCell t c))) := by
  constructor
  · intro h
    simp [convertRet, h]
  · intro t h
    simp [convertRet, h]

/-- A void-typed function and an `i64`-typed function for the C8 witness. -/
def c8VoidFunc : Function :=
  ⟨"v", ⟨[.I64], none⟩, .internal ⟨[], []⟩⟩

def c8I64Func : Function :=
  ⟨"w", ⟨[.I64], some .I64⟩, .internal ⟨[], []⟩⟩

/-- C8 witness: both branches of the conversion at concrete inputs. -/
theorem c8_ret_conversion_witness :
    convertRet c8VoidFunc (some 5) = .error (.trap .UnexpectedSignature) ∧
    convertRet c8I64Func (some 5) = .ok (some (tagCell .I64 5)) :=
  ⟨(c8_ret_conversion c8VoidFunc 5).1 rfl,
   (c8_ret_conversion c8I64Func 5).2 .I64 rfl⟩

theorem getElemOpt_some_lt {α : Type} {l : List α} {i : Nat} {a : α}
    (h : l[i]? = some a) : i < l.length := by
  rcases Nat.lt_or_ge i l.length with h2 | h2
  · exact h2
  · rw [List.getElem?_eq_none h2] at h
    exact Option.noConfusion h

/-- Patching an already patched branch instruction with the same target is a
fixed point. -/
theorem patchInstr_patch {op op2 : SInstr} {pc : Nat} (h : patchInstr op pc = some op2) :
    patchInstr op2 pc = some op2 := by
  cases op <;> simp [patchInstr] at h <;> subst h <;> rfl

/-- Correctness of the relocation loop: when every recorded site holds a
branch instruction, the loop succeeds, rewrites exactly the recorded sites
to carry the new target, and leaves every other position unchanged. -/
theorem patchAll_spec (pc : Nat) :
    ∀ (sites : List Nat) (code : List SInstr),
      (∀ site ∈ sites, ∃ op, code[site]? = some op ∧ (patchInstr op pc).isSome) →
      ∃ code2, patchAll code sites pc = some code2 ∧
        (∀ j, j ∈ sites → code2[j]? = code[j]?.bind (fun op => patchInstr op pc)) ∧
        (∀ j, j ∉ sites → code2[j]? = code[j]?) := by
  intro sites
  induction sites with
  | nil =>
    intro code hv
    exact ⟨code, rfl, by simp, fun j hj => rfl⟩
  | cons site rest ih =>
    intro code hv
    obtain ⟨op, hop, hps⟩ := hv site (List.mem_cons_self site rest)
    obtain ⟨op2, hop2⟩ := Option.isSome_iff_exists.mp hps
    have hlt : site < code.length := getElemOpt_some_lt hop
    have hv2 : ∀ s ∈ rest,
        ∃ op3, (code.set site op2)[s]? = some op3 ∧ (patchInstr op3 pc).isSome := by
      intro s hs
      by_cases hcase : s = site
      · subst hcase
        refine ⟨op2, ?_, ?_⟩
        · rw [List.getElem?_set_self hlt]
        · rw [patchInstr_patch hop2]
          rfl
      · obtain ⟨op3, h3, h4⟩ := hv s (List.mem_cons_of_mem site hs)
        refine ⟨op3, ?_, h4⟩
        rw [List.getElem?_set_ne (fun hh => hcase hh.symm), h3]
    obtain ⟨code2, hrun, hmem, hnot⟩ := ih (code.set site op2) hv2
    refine ⟨code2, ?_, ?_, ?_⟩
    · simp [patchAll, hop, hop2, hrun]
    · intro j hj
      rcases List.mem_cons.mp hj with hj1 | hj2
      · subst hj1
        by_cases hmem2 : j ∈ rest
        · rw [hmem j hmem2, List.getElem?_set_self hlt, hop]
          simp [Option.bind, hop2, patchInstr_patch hop2]
        · rw [hnot j hmem2, List.getElem?_set_self hlt, hop]
          simp [Option.bind, hop2]
      · rw [hmem j hj2]
        by_cases hcase : j = site
        · subst hcase
          rw [List.getElem?_set_self hlt, hop]
          simp [Option.bind, hop2, patchInstr_patch hop2]
        · rw [List.getElem?_set_ne (fun hh => hcase hh.symm)]
    · intro j hj
      have hj1 : j ≠ site := fun hh => hj (hh ▸ List.mem_cons_self site rest)
      have hj2 : j ∉ rest := fun hh => hj (List.mem_cons_of_mem site hh)
      rw [hnot j hj2, List.getElem?_set_ne (fun hh => hj1 hh.symm)]

/-- C9: the label protocol of the threaded back-end translator.  A
`ref_label` on a resolved label returns its PC and leaves the sink
unchanged; on an unresolved label it records the current emit position as a
relocation site and returns the `PC::MAX` placeholder.  A `resolve_label`
sets the label PC to the current emit position and rewrites the embedded
target of every recorded relocation site branch instruction to that
position, leaving all other instructions unchanged. -/
theorem c9_label_protocol :
    (∀ (s : Sink) (id : Nat) (lab : Label) (p : Nat),
      s.labels[id]? = some lab → lab.pc = some p → s.refLabel id = some (p, s)) ∧
    (∀ (s : Sink) (id : Nat) (lab : Label),
      s.labels[id]? = some lab → lab.pc = none →
      s.refLabel id = some (PCmax,
        { s with labels := s.labels.set id { lab with reloc := lab.reloc ++ [s.emitPc] } })) ∧
    (∀ (s : Sink) (id : Nat) (lab : Label),
      s.labels[id]? = some lab →
      (∀ site ∈ lab.reloc, ∃ op, s.code[site]? = some op ∧ (patchInstr op s.emitPc).isSome) →
      ∃ s2, s.resolveLabel id = some s2 ∧
        s2.labels[id]? = some { lab with pc := some s.emitPc } ∧
        (∀ j ∈ lab.reloc, s2.code[j]? = s.code[j]?.bind (fun op => patchInstr op s.emitPc)) ∧
        (∀ j, j ∉ lab.reloc → s2.code[j]? = s.code[j]?)) := by
  refine ⟨?_, ?_, ?_⟩
  · intro s id lab p hid hpc
    simp [Sink.refLabel, hid, hpc]
  · intro s id lab hid hpc
    simp [Sink.refLabel, hid, hpc]
  · intro s id lab hid hv
    obtain ⟨code2, hrun, hmem, hnot⟩ := patchAll_spec s.emitPc lab.reloc s.code hv
    refine ⟨⟨code2, s.labels.set id { lab with pc := some s.emitPc }⟩, ?_, ?_, hmem, hnot⟩
    · simp [Sink.resolveLabel, hid, hrun]
    · show (s.labels.set id { lab with pc := some s.emitPc })[id]? =
        some { lab with pc := some s.emitPc }
      rw [List.getElem?_set_self (getElemOpt_some_lt hid)]

/-- C9 witness: the three protocol branches at concrete sinks: a resolved
label, an unresolved label, and a resolution that patches one recorded
`Br PC::MAX` placeholder to the current emit position 2. -/
theorem c9_label_protocol_witness :
    Sink.refLabel ⟨[.NonBranch], [⟨none, []⟩, ⟨some 3, []⟩]⟩ 1 =
      some (3, ⟨[.NonBranch], [⟨none, []⟩, ⟨some 3, []⟩]⟩) ∧
    Sink.refLabel ⟨[.NonBranch], [⟨none, []⟩, ⟨some 3, []⟩]⟩ 0 =
      some (PCmax, ⟨[.NonBranch], [⟨none, [1]⟩, ⟨some 3, []⟩]⟩) ∧
    (∃ s2, Sink.resolveLabel ⟨[.Br PCmax, .NonBranch], [⟨none, [0]⟩]⟩ 0 = some s2 ∧
      s2.labels[0]? = some ⟨some 2, [0]⟩ ∧
      (∀ j ∈ [0], s2.code[j]? =
        ([SInstr.Br PCmax, SInstr.NonBranch] : List SInstr)[j]?.bind (fun op => patchInstr op 2)) ∧
      (∀ j, j ∉ ([0] : List Nat) → s2.code[j]? =
        ([SInstr.Br PCmax, SInstr.NonBranch] : List SInstr)[j]?)) :=
  ⟨c9_label_protocol.1 ⟨[.NonBranch], [⟨none, []⟩, ⟨some 3, []⟩]⟩ 1 ⟨some 3, []⟩ 3 rfl rfl,
   c9_label_protocol.2.1 ⟨[.NonBranch], [⟨none, []⟩, ⟨some 3, []⟩]⟩ 0 ⟨none, []⟩ rfl rfl,
   c9_label_protocol.2.2 ⟨[.Br PCmax, .NonBranch], [⟨none, [0]⟩]⟩ 0 ⟨none, [0]⟩ rfl
     (fun site hs => by
       simp at hs
       subst hs
       exact ⟨.Br PCmax, rfl, rfl⟩)⟩

/-- The step taken by `Block::run` on the result of one eval thunk: this is
the `match ret` of the source, factored as an equation on `runList`. -/
theorem runList_cons (fuel : Nat) (kind : BlockKind) (all : List Ev) (e : Ev)
    (rest : List Ev) (st st1 : CStore) (a : Action)
    (h : runEv fuel e st = .ok (a, st1)) :
    runList (fuel + 1) kind all (e :: rest) st =
      match a with
      | .Return v => .ok (.Return v, st1)
      | .End => runList fuel kind all rest st1
      | .Branch 0 => if kind = .loop then runBlock fuel kind all st1 else .ok (.End, st1)
      | .Branch (d + 1) => .ok (.Branch d, st1) := by
  cases a with
  | Return v =>
    simp only [runList]
    rw [h]
    rfl
  | End =>
    simp only [runList]
    rw [h]
    rfl
  | Branch d =>
    cases d with
    | zero =>
      simp only [runList]
      rw [h]
      rfl
    | succ e =>
      simp only [runList]
      rw [h]
      rfl

/-- A thunk that yields `Branch d`: the closure compiled for `br d`
(`Compiler::compile_br`). -/
def brThunk (d : Nat) : Ev := .thunk (fun st => .ok (.Branch d, st))

/-- `d` nested plain blocks around an eval entry. -/
def nestBlocks : Nat → Ev → Ev
  | 0, e => e
  | d + 1, e => .sub .block [nestBlocks d e]

/-- Running `k + 1` nested plain blocks around a `br d` thunk: the branch is
decremented once per enclosing block, the block at depth `d` absorbs it into
`End`, and any blocks further out pass `End` through. -/
theorem runEv_nest (d : Nat) :
    ∀ (k fuel : Nat) (st : CStore), 3 * k + 4 ≤ fuel →
      runEv fuel (nestBlocks (k + 1) (brThunk d)) st =
        .ok (if d ≤ k then Action.End else .Branch (d - (k + 1)), st) := by
  induction d using Nat.rec with
  | zero =>
    intro k
    induction k with
    | zero =>
      intro fuel st h
      obtain ⟨m, rfl⟩ : ∃ m, fuel = m + 4 := ⟨fuel - 4, by omega⟩
      rfl
    | succ k ihk =>
      intro fuel st h
      obtain ⟨m, rfl⟩ : ∃ m, fuel = m + 4 := ⟨fuel - 4, by omega⟩
      have hinner := ihk (m + 1) st (by omega)
      rw [if_pos (by omega : (0 : Nat) ≤ k)] at hinner
      have h1 : runEv (m + 4) (nestBlocks (k + 1 + 1) (brThunk 0)) st =
          runList (m + 1 + 1) .block [nestBlocks (k + 1) (brThunk 0)]
            [nestBlocks (k + 1) (brThunk 0)] st := rfl
      rw [h1, runList_cons (m + 1) .block _ _ [] st st .End hinner]
      rw [if_pos (by omega : (0 : Nat) ≤ k + 1)]
      rfl
  | succ d ihd =>
    intro k
    induction k with
    | zero =>
      intro fuel st h
      obtain ⟨m, rfl⟩ : ∃ m, fuel = m + 4 := ⟨fuel - 4, by omega⟩
      rw [if_neg (by omega : ¬ d + 1 ≤ 0)]
      rfl
    | succ k ihk =>
      intro fuel st h
      obtain ⟨m, rfl⟩ : ∃ m, fuel = m + 4 := ⟨fuel - 4, by omega⟩
      have hinner := ihk (m + 1) st (by omega)
      have h1 : runEv (m + 4) (nestBlocks (k + 1 + 1) (brThunk (d + 1))) st =
          runList (m + 1 + 1) .block [nestBlocks (k + 1) (brThunk (d + 1))]
            [nestBlocks (k + 1) (brThunk (d + 1))] st := rfl
      by_cases hdk : d + 1 ≤ k
      · rw [if_pos hdk] at hinner
        rw [h1, runList_cons (m + 1) .block _ _ [] st st .End hinner]
        rw [if_pos (by omega : d + 1 ≤ k + 1)]
        rfl
      · rw [if_neg hdk] at hinner
        by_cases heq : d + 1 = k + 1
        · have hz : d + 1 - (k + 1) = 0 := by omega
          rw [hz] at hinner
          rw [h1, runList_cons (m + 1) .block _ _ [] st st (.Branch 0) hinner]
          rw [if_pos (by omega : d + 1 ≤ k + 1)]
          rfl
        · have hz : d + 1 - (k + 1) = (d + 1 - (k + 1 + 1)) + 1 := by omega
          rw [hz] at hinner
          rw [h1, runList_cons (m + 1) .block _ _ [] st st
            (.Branch ((d + 1 - (k + 1 + 1)) + 1)) hinner]
          rw [if_neg (by omega : ¬ d + 1 ≤ k + 1)]

/-- C6: the `Action` protocol of `Block::run`.  Running a block evaluates
its thunks in order: an `End` result continues with the next thunk, a
`Return` result propagates upward unchanged, a `Branch(d + 1)` returns
`Branch d` to the parent, and a `Branch 0` restarts the block from the
beginning (re-running the full thunk list) when the block is a `Loop` and
makes the block return `End` for every other kind.  Consequently a `br d`
wrapped in `d + 1` plain blocks is absorbed exactly at the block at depth
`d` and the whole nest returns `End`. -/
theorem c6_block_run :
    (∀ (fuel : Nat) (kind : BlockKind) (all : List Ev) (e : Ev) (rest : List Ev)
      (st st1 : CStore) (a : Action), runEv fuel e st = .ok (a, st1) →
      (a = .End → runList (fuel + 1) kind all (e :: rest) st = runList fuel kind all rest st1) ∧
      (∀ v, a = .Return v →
        runList (fuel + 1) kind all (e :: rest) st = .ok (.Return v, st1)) ∧
      (∀ d, a = .Branch (d + 1) →
        runList (fuel + 1) kind all (e :: rest) st = .ok (.Branch d, st1)) ∧
      (a = .Branch 0 → kind = .loop →
        runList (fuel + 1) kind all (e :: rest) st = runBlock fuel kind all st1) ∧
      (a = .Branch 0 → kind ≠ .loop →
        runList (fuel + 1) kind all (e :: rest) st = .ok (.End, st1))) ∧
    (∀ (d fuel : Nat) (st : CStore), 3 * d + 4 ≤ fuel →
      runEv fuel (nestBlocks (d + 1) (brThunk d)) st = .ok (.End, st)) := by
  constructor
  · intro fuel kind all e rest st st1 a h
    have hc := runList_cons fuel kind all e rest st st1 a h
    refine ⟨?_, ?_, ?_, ?_, ?_⟩
    · intro ha
      subst ha
      exact hc
    · intro v ha
      subst ha
      exact hc
    · intro d ha
      subst ha
      exact hc
    · intro ha hk
      subst ha
      rw [hc, if_pos hk]
    · intro ha hk
      subst ha
      rw [hc, if_neg hk]
  · intro d fuel st h
    have := runEv_nest d d fuel st h
    rwa [if_pos (Nat.le_refl d)] at this

/-- A thunk that yields `End` and the empty store, for the C6 witness. -/
def thEnd : Ev := .thunk (fun st => .ok (.End, st))

def c6Store : CStore := ⟨⟨#[], 0, 16⟩, 0⟩

/-- C6 witness: the `End` continuation rule, the loop-restart rule, and the
nested-block branch absorption at concrete inputs. -/
theorem c6_block_run_witness :
    (runList 2 .block [thEnd] [thEnd] c6Store = runList 1 .block [thEnd] [] c6Store) ∧
    (runList 2 .loop [brThunk 0] [brThunk 0] c6Store = runBlock 1 .loop [brThunk 0] c6Store) ∧
    runEv 7 (nestBlocks 2 (brThunk 1)) c6Store = .ok (.End, c6Store) :=
  ⟨(c6_block_run.1 1 .block [thEnd] thEnd [] c6Store c6Store .End rfl).1 rfl,
   (c6_block_run.1 1 .loop [brThunk 0] (brThunk 0) [] c6Store c6Store (.Branch 0)
     rfl).2.2.2.1 rfl rfl,
   c6_block_run.2 1 7 c6Store (by omega)⟩

end S1
